import Mathlib

/-!
Verification of the particle-network animation component
(`src/components/ParticleNetwork.tsx` and its unnamed near-duplicate variant).

The numeric code is embedded shallowly, parametrically over a linear ordered
field `K`; the browser's `Math` functions (`sqrt`, `cos`, `sin`, `atan2`) are
passed in as a record of functions.  Instantiating `K := ℝ` with the genuine
real functions (`mathR` below) gives the intended model of the program;
instantiating `K := ℚ` with placeholder functions gives an executable model on
which concrete runs can be checked by `decide` (the code paths relevant to
those checks never call the placeholder functions).
-/

namespace ParticleNetwork

/-- Color as produced by `getRandomColor`: an hsla value with fixed alpha 0.8.
The source formats it as the string `hsla(hue, sat%, light%, 0.8)`; only the
three numeric components carry information, so the embedding stores those. -/
structure Color (K : Type) where
  hue : K
  sat : K
  light : K
deriving DecidableEq

/-- The `Particle` record of the source: position, velocity, radius, color and
the spawn ("original") position used as return anchor. -/
structure Particle (K : Type) where
  x : K
  y : K
  vx : K
  vy : K
  radius : K
  color : Color K
  originalX : K
  originalY : K
deriving DecidableEq

/-- The `Connection` record of the source: a pair of particle indices plus the
cached distance.  The source fields are named `from`/`to`; `from` is a Lean
keyword, hence `fromIdx`/`toIdx`. -/
structure Connection (K : Type) where
  fromIdx : Nat
  toIdx : Nat
  distance : K
deriving DecidableEq

/-- The mouse ref `{ x, y, moved }`. -/
structure Mouse (K : Type) where
  x : K
  y : K
  moved : Bool
deriving DecidableEq

/-- The mutable refs of the component that the animation loop reads and
writes: `particles.current`, `connections.current`, `mouse.current`. -/
structure SimState (K : Type) where
  particles : List (Particle K)
  connections : List (Connection K)
  mouse : Mouse K
deriving DecidableEq

/-- The `Math` functions the source calls, abstracted as plain functions.
`sqrt` is applied to the already-summed square (`Math.sqrt (dx*dx + dy*dy)`). -/
structure MathFns (K : Type) where
  sqrt : K → K
  cos : K → K
  sin : K → K
  atan2 : K → K → K

/-- `atan2 dy dx` on the reals, via the complex argument. -/
noncomputable def atan2R (dy dx : ℝ) : ℝ := Complex.arg ⟨dx, dy⟩

/-- The real-valued `Math` functions: the intended model of the program. -/
noncomputable def mathR : MathFns ℝ := ⟨Real.sqrt, Real.cos, Real.sin, atan2R⟩

/-- Fallback particle used for out-of-range index reads (JS would yield
`undefined`; all reads below are at in-range indices). -/
def dummyParticle {K : Type} [LinearOrderedField K] : Particle K :=
  ⟨0, 0, 0, 0, 0, ⟨0, 0, 0⟩, 0, 0⟩

variable {K : Type} [LinearOrderedField K]

/-- `updateConnections`: the O(n²) all-pairs scan.  For `i` from `0` to
`n-1` and `j` from `i+1` to `n-1`, compute
`distance = sqrt (dx*dx + dy*dy)` and push `{from := i, to := j, distance}`
when `distance < 150`. -/
def updateConnections (sq : K → K) (ps : List (Particle K)) :
    List (Connection K) :=
  (List.range ps.length).flatMap fun i =>
    (List.range' (i + 1) (ps.length - (i + 1))).filterMap fun j =>
      let dx := (ps.getD i dummyParticle).x - (ps.getD j dummyParticle).x
      let dy := (ps.getD i dummyParticle).y - (ps.getD j dummyParticle).y
      let distance := sq (dx * dx + dy * dy)
      if distance < 150 then some ⟨i, j, distance⟩ else none

/-- The per-particle body of the `particles.forEach` in `animate`:
advance position by velocity, reflect velocity components whose advanced
coordinate left `[0, width]` / `[0, height]`, then (only if the mouse has
moved) apply magnetism within radius 200 with speed clamp 3, or otherwise the
damped return-to-origin force. -/
def updateParticle (mf : MathFns K) (w h : K) (m : Mouse K)
    (p : Particle K) : Particle K :=
  let x := p.x + p.vx
  let y := p.y + p.vy
  let vx := if x < 0 ∨ x > w then -p.vx else p.vx
  let vy := if y < 0 ∨ y > h then -p.vy else p.vy
  if m.moved then
    let dx := m.x - x
    let dy := m.y - y
    let distance := mf.sqrt (dx * dx + dy * dy)
    if distance < 200 then
      let force := 0.9 * (1 - distance / 200)
      let angle := mf.atan2 dy dx
      let vx := vx + mf.cos angle * force * 0.2
      let vy := vy + mf.sin angle * force * 0.2
      let speed := mf.sqrt (vx ^ 2 + vy ^ 2)
      if speed > 3 then
        { p with x := x, y := y, vx := vx / speed * 3, vy := vy / speed * 3 }
      else
        { p with x := x, y := y, vx := vx, vy := vy }
    else
      let vx := (vx + (p.originalX - x) * 0.01) * 0.98
      let vy := (vy + (p.originalY - y) * 0.01) * 0.98
      { p with x := x, y := y, vx := vx, vy := vy }
  else
    { p with x := x, y := y, vx := vx, vy := vy }

/-- One drawing-surface command issued by the draw pass. -/
inductive DrawCmd (K : Type) where
  | fillBackground (w h : K)
  | line (x1 y1 x2 y2 alpha : K)
  | disc (x y radius : K) (color : Color K)
deriving DecidableEq

/-- Whether a draw command is a connection line. -/
def DrawCmd.isLine {K : Type} : DrawCmd K → Bool
  | DrawCmd.line _ _ _ _ _ => true
  | _ => false

/-- One execution of the body of `animate` once a canvas and 2D context are in
hand, fed the value `r` drawn from `Math.random()` for the probabilistic
rebuild.  In source order: fill the background; update every particle;
draw each cached connection whose opacity `1 - distance/150` is positive as a
line between the two particles' current (updated) positions with stroke alpha
`opacity * 0.2`; draw every particle as a disc; finally, if `r < 0.05`,
rebuild the connection graph from the updated positions.  The mouse ref is
read but never written. -/
def animateStep (mf : MathFns K) (w h : K) (r : K) (st : SimState K) :
    SimState K × List (DrawCmd K) :=
  let ps := st.particles.map (updateParticle mf w h st.mouse)
  let lineCmds := st.connections.filterMap fun conn =>
    let p1 := ps.getD conn.fromIdx dummyParticle
    let p2 := ps.getD conn.toIdx dummyParticle
    let opacity := 1 - conn.distance / 150
    if opacity > 0 then
      some (DrawCmd.line p1.x p1.y p2.x p2.y (opacity * 0.2))
    else none
  let discCmds := ps.map fun p => DrawCmd.disc p.x p.y p.radius p.color
  let conns := if r < 0.05 then updateConnections mf.sqrt ps
               else st.connections
  ({ st with particles := ps, connections := conns },
   DrawCmd.fillBackground w h :: (lineCmds ++ discCmds))

/-- The guard at the top of `animate`: `canvasRef.current` may be `null`, and
`canvas.getContext('2d')` may return `null`; in either case the step returns
before touching any state and without scheduling the next frame.  The surface
is `none` when the canvas is absent, and `some (w, h, ctxOk)` otherwise with
`ctxOk` recording whether the 2D context is available.  The third component of
the result records whether `requestAnimationFrame` was called. -/
def animateFrame (mf : MathFns K) (surface : Option (K × K × Bool)) (r : K)
    (st : SimState K) : SimState K × List (DrawCmd K) × Bool :=
  match surface with
  | none => (st, [], false)
  | some (w, h, ctxOk) =>
    if ctxOk then
      let res := animateStep mf w h r st
      (res.1, res.2, true)
    else (st, [], false)

/-- The particle initializer of the mount effect: `count = ⌊w*h/8000⌋`
particles, each built from eight successive `Math.random()` draws (modelled as
the stream `rnd`, consumed in source evaluation order: x, y, vx, vy, radius,
then the three color components). -/
def initParticles [FloorRing K] (rnd : Nat → K) (w h : K) :
    List (Particle K) :=
  let count := Nat.floor (w * h / 8000)
  (List.range count).map fun i =>
    let x := rnd (8 * i) * w
    let y := rnd (8 * i + 1) * h
    { x := x
      y := y
      vx := (rnd (8 * i + 2) - 0.5) * 0.3
      vy := (rnd (8 * i + 3) - 0.5) * 0.3
      radius := rnd (8 * i + 4) * 2.5 + 1
      color := { hue := rnd (8 * i + 5) * 60 + 220
                 sat := rnd (8 * i + 6) * 30 + 70
                 light := rnd (8 * i + 7) * 20 + 50 }
      originalX := x
      originalY := y }

/-- The state right after the mount effect: freshly initialized particles, an
immediate `updateConnections`, and the mouse ref at its initial value
`{x := 0, y := 0, moved := false}`. -/
def initState [FloorRing K] (mf : MathFns K) (rnd : Nat → K) (w h : K) :
    SimState K :=
  let ps := initParticles rnd w h
  ⟨ps, updateConnections mf.sqrt ps, ⟨0, 0, false⟩⟩

/-- `n` consecutive frames of the animation loop, the `k`-th frame using
`rs k` as its `Math.random()` draw for the probabilistic rebuild. -/
def runSteps (mf : MathFns K) (w h : K) (rs : Nat → K) :
    Nat → SimState K → SimState K
  | 0, st => st
  | n + 1, st => runSteps mf w h rs n (animateStep mf w h (rs n) st).1

/-- The property that every draw of the modelled `Math.random()` stream lies
in `[0, 1)`. -/
def validRnd (rnd : Nat → K) : Prop := ∀ n, 0 ≤ rnd n ∧ rnd n < 1

/-- A direct all-pairs distance-threshold scan, written from the spec's words
("examine all unordered pairs of particles; include the pair with its distance
iff distance < 150") rather than from the source loop, for comparison with
`updateConnections`. -/
def directScan (sq : K → K) (ps : List (Particle K)) : List (Connection K) :=
  (List.range ps.length).flatMap fun i =>
    (List.range ps.length).filterMap fun j =>
      if i < j then
        let dx := (ps.getD i dummyParticle).x - (ps.getD j dummyParticle).x
        let dy := (ps.getD i dummyParticle).y - (ps.getD j dummyParticle).y
        let distance := sq (dx * dx + dy * dy)
        if distance < 150 then some ⟨i, j, distance⟩ else none
      else none

/-! ### Helper lemmas about `updateConnections` -/

/-- Membership in the output of `updateConnections`: exactly the pairs
`i < j < length` whose distance value is below 150, carrying that value. -/
theorem mem_updateConnections {sq : K → K} {ps : List (Particle K)}
    {c : Connection K} :
    c ∈ updateConnections sq ps ↔
      c.fromIdx < c.toIdx ∧ c.toIdx < ps.length ∧
      sq (((ps.getD c.fromIdx dummyParticle).x -
            (ps.getD c.toIdx dummyParticle).x) *
          ((ps.getD c.fromIdx dummyParticle).x -
            (ps.getD c.toIdx dummyParticle).x) +
          ((ps.getD c.fromIdx dummyParticle).y -
            (ps.getD c.toIdx dummyParticle).y) *
          ((ps.getD c.fromIdx dummyParticle).y -
            (ps.getD c.toIdx dummyParticle).y)) < 150 ∧
      c.distance = sq (((ps.getD c.fromIdx dummyParticle).x -
            (ps.getD c.toIdx dummyParticle).x) *
          ((ps.getD c.fromIdx dummyParticle).x -
            (ps.getD c.toIdx dummyParticle).x) +
          ((ps.getD c.fromIdx dummyParticle).y -
            (ps.getD c.toIdx dummyParticle).y) *
          ((ps.getD c.fromIdx dummyParticle).y -
            (ps.getD c.toIdx dummyParticle).y)) := by
  constructor
  · intro hc
    simp only [updateConnections, List.mem_flatMap, List.mem_filterMap,
      List.mem_range, List.mem_range'_1,
      Option.ite_none_right_eq_some, Option.some_inj] at hc
    obtain ⟨i, hi, j, hj, hlt, hc⟩ := hc
    subst hc
    exact ⟨show i < j by omega, show j < ps.length by omega, hlt, rfl⟩
  · rintro ⟨hij, hj, hlt, hd⟩
    simp only [updateConnections, List.mem_flatMap, List.mem_filterMap,
      List.mem_range, List.mem_range'_1,
      Option.ite_none_right_eq_some, Option.some_inj]
    refine ⟨c.fromIdx, by omega, c.toIdx, by omega, hlt, ?_⟩
    cases c
    simp only at hd ⊢
    rw [hd]
/-- The `(from, to)` keys produced by `updateConnections` are pairwise
distinct: each unordered pair appears at most once. -/
theorem updateConnections_keys_nodup (sq : K → K) (ps : List (Particle K)) :
    ((updateConnections sq ps).map fun c => (c.fromIdx, c.toIdx)).Nodup := by
  rw [updateConnections, List.map_flatMap]
  rw [List.nodup_flatMap]
  constructor
  · intro i _
    rw [List.map_filterMap]
    apply List.Nodup.filterMap
    · intro a a' b hb hb'
      simp only [Option.mem_def, Option.map_eq_some',
        Option.ite_none_right_eq_some, Option.some_inj] at hb hb'
      obtain ⟨c, ⟨-, hc⟩, hkey⟩ := hb
      obtain ⟨c', ⟨-, hc'⟩, hkey'⟩ := hb'
      rw [← hc] at hkey
      rw [← hc'] at hkey'
      have h2 := hkey'.trans hkey.symm
      simp only [Prod.mk.injEq] at h2
      exact h2.2.symm
    · exact List.nodup_range' _ _
  · refine List.Pairwise.imp ?_ (List.nodup_range ps.length)
    intro i i' hne
    intro x hx hx'
    simp only [List.map_filterMap, List.mem_filterMap, Option.map_eq_some',
      Option.ite_none_right_eq_some, Option.some_inj] at hx hx'
    obtain ⟨j, -, c, ⟨-, hc⟩, hkey⟩ := hx
    obtain ⟨j', -, c', ⟨-, hc'⟩, hkey'⟩ := hx'
    rw [← hc] at hkey
    rw [← hc'] at hkey'
    have h2 := hkey'.trans hkey.symm
    simp only [Prod.mk.injEq] at h2
    exact hne h2.1.symm

/-- `updateConnections` reads nothing but the positions: two particle lists of
equal length whose positions agree pointwise produce the same graph. -/
theorem updateConnections_congr_positions (sq : K → K)
    {ps qs : List (Particle K)} (hlen : ps.length = qs.length)
    (hpos : ∀ i, i < ps.length →
      (ps.getD i dummyParticle).x = (qs.getD i dummyParticle).x ∧
      (ps.getD i dummyParticle).y = (qs.getD i dummyParticle).y) :
    updateConnections sq ps = updateConnections sq qs := by
  rw [updateConnections, updateConnections, ← hlen]
  apply List.flatMap_congr
  intro i hi
  rw [List.mem_range] at hi
  apply List.filterMap_congr
  intro j hj
  rw [List.mem_range'_1] at hj
  have hj' : j < ps.length := by omega
  obtain ⟨hx, hy⟩ := hpos i hi
  obtain ⟨hx', hy'⟩ := hpos j hj'
  simp only [hx, hy, hx', hy']

/-- The source loop (`j` starting at `i + 1`) produces exactly the direct
all-unordered-pairs scan written from the spec. -/
theorem updateConnections_eq_directScan (sq : K → K)
    (ps : List (Particle K)) :
    updateConnections sq ps = directScan sq ps := by
  rw [updateConnections, directScan]
  apply List.flatMap_congr
  intro i hi
  rw [List.mem_range] at hi
  have h1 : ps.length - (i + 1) + (i + 1) = ps.length := by omega
  have hsplit : List.range ps.length =
      List.range' 0 (i + 1) ++ List.range' (i + 1) (ps.length - (i + 1)) := by
    have h2 := List.range'_append 0 (i + 1) (ps.length - (i + 1)) 1
    simp only [Nat.zero_add, Nat.one_mul] at h2
    rw [h1] at h2
    rw [List.range_eq_range']
    exact h2.symm
  rw [hsplit, List.filterMap_append]
  have hleft : (List.range' 0 (i + 1)).filterMap (fun j =>
      if i < j then
        let dx := (ps.getD i dummyParticle).x - (ps.getD j dummyParticle).x
        let dy := (ps.getD i dummyParticle).y - (ps.getD j dummyParticle).y
        let distance := sq (dx * dx + dy * dy)
        if distance < 150 then some (⟨i, j, distance⟩ : Connection K) else none
      else none) = [] := by
    rw [List.filterMap_eq_nil_iff]
    intro j hj
    rw [List.mem_range'_1] at hj
    rw [if_neg (show ¬ i < j by omega)]
  rw [hleft, List.nil_append]
  apply List.filterMap_congr
  intro j hj
  rw [List.mem_range'_1] at hj
  rw [if_pos (show i < j by omega)]

/-! ### Helper lemmas about the per-frame step -/

/-- With the mouse never moved, the per-particle update is exactly
advance-then-reflect: the whole magnetism block is skipped. -/
theorem updateParticle_unmoved (mf : MathFns K) (w h : K) {m : Mouse K}
    (hm : m.moved = false) (p : Particle K) :
    updateParticle mf w h m p =
      { p with
        x := p.x + p.vx
        y := p.y + p.vy
        vx := if p.x + p.vx < 0 ∨ p.x + p.vx > w then -p.vx else p.vx
        vy := if p.y + p.vy < 0 ∨ p.y + p.vy > h then -p.vy else p.vy } := by
  rw [updateParticle]
  simp only [hm, Bool.false_eq_true, if_false]

/-- The particle list after one frame is the pointwise update of the old one. -/
theorem animateStep_particles (mf : MathFns K) (w h r : K) (st : SimState K) :
    (animateStep mf w h r st).1.particles =
      st.particles.map (updateParticle mf w h st.mouse) := rfl

/-- A frame never writes the mouse ref. -/
theorem animateStep_mouse (mf : MathFns K) (w h r : K) (st : SimState K) :
    (animateStep mf w h r st).1.mouse = st.mouse := rfl

/-- On a frame whose random draw fires the rebuild, the new connection set is
computed from the already-updated particle positions. -/
theorem animateStep_connections_rebuild (mf : MathFns K) (w h : K) {r : K}
    (hr : r < 0.05) (st : SimState K) :
    (animateStep mf w h r st).1.connections =
      updateConnections mf.sqrt ((animateStep mf w h r st).1.particles) := by
  simp only [animateStep, if_pos hr]

/-- On a frame whose random draw does not fire the rebuild, the connection set
is left untouched. -/
theorem animateStep_connections_keep (mf : MathFns K) (w h : K) {r : K}
    (hr : ¬ r < 0.05) (st : SimState K) :
    (animateStep mf w h r st).1.connections = st.connections := by
  simp only [animateStep, if_neg hr]

/-- The draw output of a frame does not depend on the rebuild draw `r`: the
rebuild happens after the draw pass. -/
theorem animateStep_draw_indep (mf : MathFns K) (w h r r' : K)
    (st : SimState K) :
    (animateStep mf w h r st).2 = (animateStep mf w h r' st).2 := rfl

/-- Frames never write the mouse ref. -/
theorem runSteps_mouse (mf : MathFns K) (w h : K) (rs : Nat → K) (n : Nat)
    (st : SimState K) : (runSteps mf w h rs n st).mouse = st.mouse := by
  induction n generalizing st with
  | zero => rfl
  | succ n ih => rw [runSteps, ih, animateStep_mouse]

/-- Running `n` frames updates each particle independently `n` times. -/
theorem runSteps_particles (mf : MathFns K) (w h : K) (rs : Nat → K) (n : Nat)
    (st : SimState K) :
    (runSteps mf w h rs n st).particles =
      st.particles.map ((updateParticle mf w h st.mouse)^[n]) := by
  induction n generalizing st with
  | zero => simp [runSteps]
  | succ n ih =>
    rw [runSteps, ih, animateStep_mouse, animateStep_particles,
      List.map_map, ← Function.iterate_succ]

/-! ### Boundary invariant for unmoved-pointer runs -/

/-- One coordinate's reachable states when the pointer never moves: either in
bounds, or just below `0` moving back up, or just above `w` moving back down.
The out-of-bounds states are the one-frame overshoots the reflection policy
permits. -/
def coordOk (w x vx : K) : Prop :=
  (0 ≤ x ∧ x ≤ w) ∨ (x < 0 ∧ 0 < vx ∧ -vx ≤ x) ∨ (w < x ∧ vx < 0 ∧ x ≤ w - vx)

/-- The advance-then-reflect update preserves `coordOk` and the velocity
magnitude, for speeds up to `0.15` on an axis of length at least `0.15`. -/
theorem coordOk_step {w x vx : K} (hw : 0.15 ≤ w) (hv : |vx| ≤ 0.15)
    (hx : coordOk w x vx) :
    coordOk w (x + vx) (if x + vx < 0 ∨ x + vx > w then -vx else vx) ∧
    |if x + vx < 0 ∨ x + vx > w then -vx else vx| = |vx| := by
  obtain ⟨hv1, hv2⟩ := abs_le.mp hv
  constructor
  · rcases hx with ⟨h0, h1⟩ | ⟨h0, h1, h2⟩ | ⟨h0, h1, h2⟩
    · split_ifs with hcond
      · rcases hcond with hc | hc
        · exact Or.inr (Or.inl ⟨hc, by linarith, by linarith⟩)
        · exact Or.inr (Or.inr ⟨hc, by linarith, by linarith⟩)
      · push_neg at hcond
        exact Or.inl ⟨hcond.1, hcond.2⟩
    · rw [if_neg (by push_neg; constructor <;> linarith)]
      exact Or.inl ⟨by linarith, by linarith⟩
    · rw [if_neg (by push_neg; constructor <;> linarith)]
      exact Or.inl ⟨by linarith, by linarith⟩
  · split_ifs
    · exact abs_neg vx
    · rfl

/-- Particle-level invariant: both velocity components at magnitude at most
`0.15`, and both coordinates in a `coordOk` state. -/
def particleInv (w h : K) (p : Particle K) : Prop :=
  |p.vx| ≤ 0.15 ∧ |p.vy| ≤ 0.15 ∧ coordOk w p.x p.vx ∧ coordOk h p.y p.vy

/-- The invariant is preserved by the per-particle update as long as the
pointer has never moved. -/
theorem particleInv_step (mf : MathFns K) {w h : K} {m : Mouse K}
    (hm : m.moved = false) (hw : 0.15 ≤ w) (hh : 0.15 ≤ h)
    {p : Particle K} (hp : particleInv w h p) :
    particleInv w h (updateParticle mf w h m p) := by
  rw [updateParticle_unmoved mf w h hm]
  obtain ⟨h1, h2, h3, h4⟩ := hp
  have hx := coordOk_step hw h1 h3
  have hy := coordOk_step hh h2 h4
  exact ⟨hx.2.le.trans h1, hy.2.le.trans h2, hx.1, hy.1⟩

/-- The invariant pins every coordinate to the viewport enlarged by `0.15` on
each side. -/
theorem particleInv_bounds {w h : K} (hw : 0.15 ≤ w) (hh : 0.15 ≤ h)
    {p : Particle K} (hp : particleInv w h p) :
    -0.15 ≤ p.x ∧ p.x ≤ w + 0.15 ∧ -0.15 ≤ p.y ∧ p.y ≤ h + 0.15 := by
  obtain ⟨h1, h2, h3, h4⟩ := hp
  obtain ⟨hv1, hv2⟩ := abs_le.mp h1
  obtain ⟨hw1, hw2⟩ := abs_le.mp h2
  constructor
  · rcases h3 with ⟨a, b⟩ | ⟨a, b, c⟩ | ⟨a, b, c⟩ <;> linarith
  constructor
  · rcases h3 with ⟨a, b⟩ | ⟨a, b, c⟩ | ⟨a, b, c⟩ <;> linarith
  constructor
  · rcases h4 with ⟨a, b⟩ | ⟨a, b, c⟩ | ⟨a, b, c⟩ <;> linarith
  · rcases h4 with ⟨a, b⟩ | ⟨a, b, c⟩ | ⟨a, b, c⟩ <;> linarith

/-! ### Initializer bounds -/

/-- Field bounds for every particle the initializer produces, given that every
`Math.random()` draw lies in `[0, 1)` and the viewport dimensions are
nonnegative. -/
theorem initParticles_mem [FloorRing K] {rnd : Nat → K}
    (hrnd : validRnd rnd) {w h : K} (hw : 0 ≤ w) (hh : 0 ≤ h)
    {p : Particle K} (hp : p ∈ initParticles rnd w h) :
    0 ≤ p.x ∧ p.x < w ∧ 0 ≤ p.y ∧ p.y < h ∧
    -0.15 ≤ p.vx ∧ p.vx ≤ 0.15 ∧ -0.15 ≤ p.vy ∧ p.vy ≤ 0.15 ∧
    1 ≤ p.radius ∧ p.radius ≤ 3.5 ∧
    p.originalX = p.x ∧ p.originalY = p.y := by
  rw [initParticles, List.mem_map] at hp
  obtain ⟨i, hi, hp⟩ := hp
  rw [List.mem_range] at hi
  have hfl : 1 ≤ Nat.floor (w * h / 8000) := by omega
  have harea : (8000 : K) ≤ w * h := by
    have h0 : (0 : K) ≤ w * h / 8000 := by positivity
    have := (Nat.le_floor_iff h0).mp hfl
    rw [Nat.cast_one, le_div_iff₀ (by norm_num : (0:K) < 8000)] at this
    linarith
  have hw0 : (0 : K) < w := by
    rcases hw.lt_or_eq with h' | h'
    · exact h'
    · exfalso; rw [← h', zero_mul] at harea; linarith
  have hh0 : (0 : K) < h := by
    rcases hh.lt_or_eq with h' | h'
    · exact h'
    · exfalso; rw [← h', mul_zero] at harea; linarith
  subst hp
  obtain ⟨hx0, hx1⟩ := hrnd (8 * i)
  obtain ⟨hy0, hy1⟩ := hrnd (8 * i + 1)
  obtain ⟨ha0, ha1⟩ := hrnd (8 * i + 2)
  obtain ⟨hb0, hb1⟩ := hrnd (8 * i + 3)
  obtain ⟨hr0, hr1⟩ := hrnd (8 * i + 4)
  refine ⟨mul_nonneg hx0 hw0.le, ?_, mul_nonneg hy0 hh0.le, ?_,
    by linarith, by linarith, by linarith, by linarith,
    by linarith, by linarith, rfl, rfl⟩
  · calc rnd (8 * i) * w < 1 * w := by
          exact mul_lt_mul_of_pos_right hx1 hw0
      _ = w := one_mul w
  · calc rnd (8 * i + 1) * h < 1 * h := mul_lt_mul_of_pos_right hy1 hh0
      _ = h := one_mul h

/-- The invariant holds for every particle after any number of frames, as
long as the pointer never moved. -/
theorem runSteps_inv (mf : MathFns K) {w h : K} (hw : 0.15 ≤ w)
    (hh : 0.15 ≤ h) (rs : Nat → K) (n : Nat) {st : SimState K}
    (hm : st.mouse.moved = false)
    (hinv : ∀ p ∈ st.particles, particleInv w h p) :
    ∀ p ∈ (runSteps mf w h rs n st).particles, particleInv w h p := by
  induction n generalizing st with
  | zero => exact hinv
  | succ n ih =>
    rw [runSteps]
    apply ih
    · rw [animateStep_mouse]; exact hm
    · rw [animateStep_particles]
      intro p hp
      rw [List.mem_map] at hp
      obtain ⟨q, hq, rfl⟩ := hp
      exact particleInv_step mf hm hw hh (hinv q hq)

/-! ### The speed clamp -/

/-- After rescaling a vector of norm above 3 by `3 / norm`, its norm is
exactly 3. -/
theorem sqrt_rescale (a b : ℝ) (hs : 3 < Real.sqrt (a ^ 2 + b ^ 2)) :
    Real.sqrt ((a / Real.sqrt (a ^ 2 + b ^ 2) * 3) ^ 2 +
      (b / Real.sqrt (a ^ 2 + b ^ 2) * 3) ^ 2) = 3 := by
  have hnn : (0 : ℝ) ≤ a ^ 2 + b ^ 2 := by positivity
  have hs2 : Real.sqrt (a ^ 2 + b ^ 2) ^ 2 = a ^ 2 + b ^ 2 :=
    Real.sq_sqrt hnn
  have hs0 : (0 : ℝ) < Real.sqrt (a ^ 2 + b ^ 2) := by linarith
  have hpos : (0 : ℝ) < a ^ 2 + b ^ 2 := by nlinarith
  have key : (a / Real.sqrt (a ^ 2 + b ^ 2) * 3) ^ 2 +
      (b / Real.sqrt (a ^ 2 + b ^ 2) * 3) ^ 2 =
      9 * ((a ^ 2 + b ^ 2) / Real.sqrt (a ^ 2 + b ^ 2) ^ 2) := by ring
  rw [key, hs2, div_self hpos.ne', mul_one,
    show (9 : ℝ) = 3 ^ 2 by norm_num,
    Real.sqrt_sq (by norm_num : (0:ℝ) ≤ 3)]

/-- The clamp step: whether or not the rescale fires, the resulting vector
has norm at most 3. -/
theorem clamp_le_three (a b : ℝ) :
    Real.sqrt
      ((if Real.sqrt (a ^ 2 + b ^ 2) > 3
        then a / Real.sqrt (a ^ 2 + b ^ 2) * 3 else a) ^ 2 +
       (if Real.sqrt (a ^ 2 + b ^ 2) > 3
        then b / Real.sqrt (a ^ 2 + b ^ 2) * 3 else b) ^ 2) ≤ 3 := by
  split_ifs with hsp
  · exact le_of_eq (sqrt_rescale a b hsp)
  · exact not_lt.mp hsp

/-- Within the magnetic radius, the particle's post-update velocity has
norm at most 3: the clamp either leaves a small velocity alone or rescales a
large one to norm exactly 3. -/
theorem updateParticle_speed_clamp (w h : ℝ) {m : Mouse ℝ}
    (hm : m.moved = true) (p : Particle ℝ)
    (hd : mathR.sqrt ((m.x - (p.x + p.vx)) * (m.x - (p.x + p.vx)) +
      (m.y - (p.y + p.vy)) * (m.y - (p.y + p.vy))) < 200) :
    Real.sqrt ((updateParticle mathR w h m p).vx ^ 2 +
      (updateParticle mathR w h m p).vy ^ 2) ≤ 3 := by
  rw [updateParticle]
  simp only [hm, if_true]
  rw [if_pos hd]
  rw [apply_ite Particle.vx, apply_ite Particle.vy]
  dsimp only
  simp only [mathR]
  exact clamp_le_three _ _

/-! ### Concrete evaluation helpers and fixtures -/

/-- Evaluate `Real.sqrt` at a perfect square. -/
theorem sqrt_eval {x y : ℝ} (hy : 0 ≤ y) (hxy : y ^ 2 = x) :
    Real.sqrt x = y := by rw [← hxy, Real.sqrt_sq hy]

/-- Placeholder math functions over `ℚ`, for exercising code paths that never
call them (unmoved-pointer runs) or that only feed them through opaquely
(`sqrt` as the identity on the squared distance). -/
def mathQ : MathFns ℚ := ⟨fun a => a, fun a => a, fun a => a, fun _ _ => 0⟩

/-- The Euclidean distance between two particles' positions, as the claim
states it. -/
noncomputable def pairDist (p q : Particle ℝ) : ℝ :=
  Real.sqrt ((p.x - q.x) * (p.x - q.x) + (p.y - q.y) * (p.y - q.y))

def pA1 : Particle ℝ := ⟨0, 0, 0, 0, 1, ⟨230, 80, 60⟩, 0, 0⟩
def pB1 : Particle ℝ := ⟨3, 4, 0, 0, 1, ⟨240, 90, 55⟩, 3, 4⟩
def psW1 : List (Particle ℝ) := [pA1, pB1]
def qsW1 : List (Particle ℝ) :=
  [⟨0, 0, 2, 5, 3, ⟨250, 75, 65⟩, 7, 8⟩, ⟨3, 4, 1, 1, 2, ⟨260, 85, 50⟩, 9, 9⟩]

/-! ### C1 -/

/-- C1: for every particle set, the connection-graph builder returns exactly
the unordered pairs of particles at Euclidean distance strictly below 150,
each listed once with the lower index first, no self-pairs, each stored with
its computed distance; and the result is a deterministic function of the
current particle positions. -/
theorem claim1_connection_graph_exact (ps : List (Particle ℝ)) :
    (∀ c : Connection ℝ, c ∈ updateConnections Real.sqrt ps ↔
      c.fromIdx < c.toIdx ∧ c.toIdx < ps.length ∧
      pairDist (ps.getD c.fromIdx dummyParticle)
        (ps.getD c.toIdx dummyParticle) < 150 ∧
      c.distance = pairDist (ps.getD c.fromIdx dummyParticle)
        (ps.getD c.toIdx dummyParticle)) ∧
    ((updateConnections Real.sqrt ps).map fun c => (c.fromIdx, c.toIdx)).Nodup ∧
    (∀ qs : List (Particle ℝ), ps.length = qs.length →
      (∀ i, i < ps.length →
        (ps.getD i dummyParticle).x = (qs.getD i dummyParticle).x ∧
        (ps.getD i dummyParticle).y = (qs.getD i dummyParticle).y) →
      updateConnections Real.sqrt ps = updateConnections Real.sqrt qs) := by
  refine ⟨fun c => ?_, updateConnections_keys_nodup _ _,
    fun qs h1 h2 => updateConnections_congr_positions _ h1 h2⟩
  rw [mem_updateConnections]
  exact Iff.rfl

/-- Witness for C1 at a concrete two-particle set (distance 5): the pair is
present with its distance, keys are unique, and a second list with the same
positions but different velocities, radii and colors yields the same graph. -/
theorem claim1_witness :
    ((⟨0, 1, Real.sqrt 25⟩ : Connection ℝ) ∈
        updateConnections Real.sqrt psW1 ∧
      ((updateConnections Real.sqrt psW1).map
        fun c => (c.fromIdx, c.toIdx)).Nodup ∧
      updateConnections Real.sqrt psW1 = updateConnections Real.sqrt qsW1) := by
  obtain ⟨h1, h2, h3⟩ := claim1_connection_graph_exact psW1
  refine ⟨(h1 _).mpr ⟨?_, ?_, ?_, ?_⟩, h2, h3 qsW1 rfl ?_⟩
  · show (0 : Nat) < 1
    norm_num
  · show (1 : Nat) < 2
    norm_num
  · show Real.sqrt ((pA1.x - pB1.x) * (pA1.x - pB1.x) +
      (pA1.y - pB1.y) * (pA1.y - pB1.y)) < 150
    rw [show (pA1.x - pB1.x) * (pA1.x - pB1.x) +
      (pA1.y - pB1.y) * (pA1.y - pB1.y) = 25 by norm_num [pA1, pB1]]
    rw [sqrt_eval (by norm_num : (0:ℝ) ≤ 5) (by norm_num)]
    norm_num
  · show Real.sqrt 25 = Real.sqrt ((pA1.x - pB1.x) * (pA1.x - pB1.x) +
      (pA1.y - pB1.y) * (pA1.y - pB1.y))
    rw [show (pA1.x - pB1.x) * (pA1.x - pB1.x) +
      (pA1.y - pB1.y) * (pA1.y - pB1.y) = 25 by norm_num [pA1, pB1]]
  · intro i hi
    have hi' : i < 2 := hi
    interval_cases i <;> exact ⟨rfl, rfl⟩

/-! ### C2 -/

/-- C2: the initializer produces exactly `⌊w*h/8000⌋` particles, each with
position in `[0,w) × [0,h)`, velocity components in `[-0.15, 0.15]`, radius
in `[1, 3.5]`, and origin equal to the initial position. -/
theorem claim2_initializer [FloorRing K] {rnd : Nat → K}
    (hrnd : validRnd rnd) (w h : K) (hw : 0 ≤ w) (hh : 0 ≤ h) :
    (initParticles rnd w h).length = Nat.floor (w * h / 8000) ∧
    ∀ p ∈ initParticles rnd w h,
      0 ≤ p.x ∧ p.x < w ∧ 0 ≤ p.y ∧ p.y < h ∧
      -0.15 ≤ p.vx ∧ p.vx ≤ 0.15 ∧ -0.15 ≤ p.vy ∧ p.vy ≤ 0.15 ∧
      1 ≤ p.radius ∧ p.radius ≤ 3.5 ∧
      p.originalX = p.x ∧ p.originalY = p.y := by
  refine ⟨?_, fun p hp => initParticles_mem hrnd hw hh hp⟩
  rw [initParticles]
  simp

/-- Witness for C2 on a 100×80 viewport (one particle) with the constant
stream `1/2`. -/
theorem claim2_witness :
    validRnd (fun _ => (1/2 : ℚ)) ∧ (0:ℚ) ≤ 100 ∧ (0:ℚ) ≤ 80 ∧
    ((initParticles (fun _ => (1/2 : ℚ)) 100 80).length =
        Nat.floor ((100 * 80 : ℚ) / 8000) ∧
      ∀ p ∈ initParticles (fun _ => (1/2 : ℚ)) 100 80,
        0 ≤ p.x ∧ p.x < 100 ∧ 0 ≤ p.y ∧ p.y < 80 ∧
        -0.15 ≤ p.vx ∧ p.vx ≤ 0.15 ∧ -0.15 ≤ p.vy ∧ p.vy ≤ 0.15 ∧
        1 ≤ p.radius ∧ p.radius ≤ 3.5 ∧
        p.originalX = p.x ∧ p.originalY = p.y) :=
  ⟨fun _ => by norm_num, by norm_num, by norm_num,
    claim2_initializer (fun _ => by norm_num) 100 80
      (by norm_num) (by norm_num)⟩

/-! ### C10 -/

/-- C10: every connection the builder produces has `from < to < particle
count`, so it references two distinct existing particles. -/
theorem claim10_connection_indices (sq : K → K) (ps : List (Particle K))
    (c : Connection K) (hc : c ∈ updateConnections sq ps) :
    c.fromIdx < c.toIdx ∧ c.toIdx < ps.length :=
  ⟨(mem_updateConnections.mp hc).1, (mem_updateConnections.mp hc).2.1⟩

def psW10 : List (Particle ℚ) :=
  [⟨0, 0, 0, 0, 1, ⟨230, 80, 60⟩, 0, 0⟩, ⟨3, 4, 0, 0, 1, ⟨240, 90, 55⟩, 3, 4⟩]

/-- Witness for C10: a concrete membership (squared distance 25 under the
identity-as-sqrt placeholder) yields well-formed indices. -/
theorem claim10_witness :
    (⟨0, 1, 25⟩ : Connection ℚ) ∈ updateConnections (fun a => a) psW10 ∧
    ((⟨0, 1, 25⟩ : Connection ℚ).fromIdx < (⟨0, 1, 25⟩ : Connection ℚ).toIdx ∧
      (⟨0, 1, 25⟩ : Connection ℚ).toIdx < psW10.length) := by
  have hm : (⟨0, 1, 25⟩ : Connection ℚ) ∈
      updateConnections (fun a => a) psW10 := by
    rw [mem_updateConnections]
    refine ⟨by norm_num, by norm_num [psW10], ?_, ?_⟩
    · norm_num [psW10]
    · norm_num [psW10]
  exact ⟨hm, claim10_connection_indices (fun a => a) psW10 _ hm⟩

/-! ### C3 -/

def pC3 : Particle ℚ := ⟨799.95, 300, 0.1, 0, 1, ⟨230, 80, 60⟩, 799.95, 300⟩
def stC3 : SimState ℚ := ⟨[pC3], [], ⟨0, 0, false⟩⟩

/-- Counterexample to C3 as stated: with the pointer never moved, a step on a
particle at `x = 799.95` with `vx = 0.1` (advanced position `800.05 > 800`)
negates `vx` by boundary reflection, so the step does alter a velocity. -/
theorem claim3_counterexample :
    stC3.mouse.moved = false ∧
    ((animateStep mathQ 800 600 1 stC3).1.particles.getD 0
        dummyParticle).vx ≠
      (stC3.particles.getD 0 dummyParticle).vx := by
  refine ⟨rfl, ?_⟩
  rw [animateStep_particles]
  show ((List.map (updateParticle mathQ 800 600 stC3.mouse)
      [pC3]).getD 0 dummyParticle).vx ≠ pC3.vx
  simp only [List.map_cons, List.map_nil, List.getD_cons_zero]
  rw [updateParticle_unmoved mathQ 800 600 rfl]
  norm_num [pC3]

/-- C3 amended: with the pointer never moved, a simulation step maps each
particle through the advance-and-reflect update only, and each velocity
component follows the exact reflection rule: it is negated (`vx' = -vx`)
exactly when the advanced coordinate leaves `[0, width]` (resp.
`[0, height]`), and kept unchanged otherwise. -/
theorem claim3_unmoved_velocity (mf : MathFns K) (w h r : K)
    (st : SimState K) (hm : st.mouse.moved = false) :
    (animateStep mf w h r st).1.particles =
      st.particles.map (updateParticle mf w h st.mouse) ∧
    ∀ p ∈ st.particles,
      (updateParticle mf w h st.mouse p).vx =
        (if p.x + p.vx < 0 ∨ p.x + p.vx > w then -p.vx else p.vx) ∧
      (updateParticle mf w h st.mouse p).vy =
        (if p.y + p.vy < 0 ∨ p.y + p.vy > h then -p.vy else p.vy) := by
  refine ⟨animateStep_particles mf w h r st, fun p _ => ?_⟩
  rw [updateParticle_unmoved mf w h hm]
  exact ⟨rfl, rfl⟩

def pC3w : Particle ℚ := ⟨100, 100, 0.1, 0.1, 1, ⟨230, 80, 60⟩, 100, 100⟩
def stC3w : SimState ℚ := ⟨[pC3w], [], ⟨0, 0, false⟩⟩

/-- Witness for the amended C3 at a concrete in-bounds state. -/
theorem claim3_witness :
    stC3w.mouse.moved = false ∧
    ((animateStep mathQ 800 600 1 stC3w).1.particles =
        stC3w.particles.map (updateParticle mathQ 800 600 stC3w.mouse) ∧
      ∀ p ∈ stC3w.particles,
        (updateParticle mathQ 800 600 stC3w.mouse p).vx =
          (if p.x + p.vx < 0 ∨ p.x + p.vx > 800 then -p.vx else p.vx) ∧
        (updateParticle mathQ 800 600 stC3w.mouse p).vy =
          (if p.y + p.vy < 0 ∨ p.y + p.vy > 600 then -p.vy else p.vy)) :=
  ⟨rfl, claim3_unmoved_velocity mathQ 800 600 1 stC3w rfl⟩

/-! ### C5 -/

/-- C5: a step advances the position by the velocity and leaves it at that
(possibly out-of-bounds) value; reflection is evaluated on the advanced
position, and (observable when the magnetism phase is skipped because the
pointer never moved) a component is negated exactly when the advanced
coordinate left its interval, preserving its magnitude. -/
theorem claim5_reflection_semantics (mf : MathFns K) (w h : K) (m : Mouse K)
    (p : Particle K) :
    (updateParticle mf w h m p).x = p.x + p.vx ∧
    (updateParticle mf w h m p).y = p.y + p.vy ∧
    (m.moved = false →
      (updateParticle mf w h m p).vx =
        (if p.x + p.vx < 0 ∨ p.x + p.vx > w then -p.vx else p.vx) ∧
      (updateParticle mf w h m p).vy =
        (if p.y + p.vy < 0 ∨ p.y + p.vy > h then -p.vy else p.vy) ∧
      |(updateParticle mf w h m p).vx| = |p.vx| ∧
      |(updateParticle mf w h m p).vy| = |p.vy|) := by
  refine ⟨?_, ?_, fun hm => ?_⟩
  · rw [updateParticle]
    dsimp only
    split_ifs <;> rfl
  · rw [updateParticle]
    dsimp only
    split_ifs <;> rfl
  · rw [updateParticle_unmoved mf w h hm]
    refine ⟨rfl, rfl, ?_, ?_⟩ <;> dsimp only <;> split_ifs <;>
      simp [abs_neg]

def pC5 : Particle ℚ := ⟨799.95, -0.05, 0.1, -0.1, 1, ⟨230, 80, 60⟩, 700, 300⟩

/-- Witness for C5 at a concrete particle whose advanced position exits the
viewport on both axes. -/
theorem claim5_witness :
    (updateParticle mathQ 800 600 ⟨0, 0, false⟩ pC5).x = pC5.x + pC5.vx ∧
    (updateParticle mathQ 800 600 ⟨0, 0, false⟩ pC5).y = pC5.y + pC5.vy ∧
    ((updateParticle mathQ 800 600 ⟨0, 0, false⟩ pC5).vx =
      (if pC5.x + pC5.vx < 0 ∨ pC5.x + pC5.vx > 800 then -pC5.vx
       else pC5.vx) ∧
    (updateParticle mathQ 800 600 ⟨0, 0, false⟩ pC5).vy =
      (if pC5.y + pC5.vy < 0 ∨ pC5.y + pC5.vy > 600 then -pC5.vy
       else pC5.vy) ∧
    |(updateParticle mathQ 800 600 ⟨0, 0, false⟩ pC5).vx| = |pC5.vx| ∧
    |(updateParticle mathQ 800 600 ⟨0, 0, false⟩ pC5).vy| = |pC5.vy|) := by
  obtain ⟨h1, h2, h3⟩ :=
    claim5_reflection_semantics mathQ 800 600 ⟨0, 0, false⟩ pC5
  exact ⟨h1, h2, h3 rfl⟩

/-! ### C4 -/

def pC4 : Particle ℝ := ⟨0, 0, 0, 0, 1, ⟨230, 80, 60⟩, 1000, 0⟩
def mC4 : Mouse ℝ := ⟨500, 0, true⟩

/-- Counterexample to C4 as stated: with the pointer moved but the particle
outside the magnetic radius (distance 500 ≥ 200) and spawned far from its
origin, the unclamped return force yields speed `9.8 > 3` after the step. -/
theorem claim4_counterexample :
    mC4.moved = true ∧
    3 < Real.sqrt ((updateParticle mathR 800 600 mC4 pC4).vx ^ 2 +
      (updateParticle mathR 800 600 mC4 pC4).vy ^ 2) := by
  refine ⟨rfl, ?_⟩
  have hq : updateParticle mathR 800 600 mC4 pC4 =
      { pC4 with x := 0, y := 0, vx := 9.8, vy := 0 } := by
    rw [updateParticle]
    simp only [mC4, pC4, mathR]
    have h1 : Real.sqrt (((500:ℝ) - (0 + 0)) * (500 - (0 + 0)) +
        (0 - (0 + 0)) * (0 - (0 + 0))) = 500 := by
      rw [show ((500:ℝ) - (0 + 0)) * (500 - (0 + 0)) +
        (0 - (0 + 0)) * (0 - (0 + 0)) = 250000 by norm_num]
      exact sqrt_eval (by norm_num) (by norm_num)
    rw [if_pos trivial, if_neg (by rw [h1]; norm_num)]
    norm_num
  rw [hq]
  show 3 < Real.sqrt ((9.8:ℝ) ^ 2 + (0:ℝ) ^ 2)
  rw [show ((9.8:ℝ) ^ 2 + (0:ℝ) ^ 2) = 96.04 by norm_num]
  rw [sqrt_eval (by norm_num : (0:ℝ) ≤ 9.8) (by norm_num)]
  norm_num

/-- C4 amended: after the magnetism phase of a step with the pointer moved,
the particle's speed is at most 3 whenever its distance to the pointer (as the
code computes it, from the advanced position) is below the magnetic
radius 200; outside that radius the unclamped return force applies instead. -/
theorem claim4_speed_clamp (w h : ℝ) (m : Mouse ℝ) (p : Particle ℝ)
    (hm : m.moved = true)
    (hd : mathR.sqrt ((m.x - (p.x + p.vx)) * (m.x - (p.x + p.vx)) +
      (m.y - (p.y + p.vy)) * (m.y - (p.y + p.vy))) < 200) :
    Real.sqrt ((updateParticle mathR w h m p).vx ^ 2 +
      (updateParticle mathR w h m p).vy ^ 2) ≤ 3 :=
  updateParticle_speed_clamp w h hm p hd

def pC4w : Particle ℝ := ⟨100, 100, 0, 0, 1, ⟨230, 80, 60⟩, 100, 100⟩
def mC4w : Mouse ℝ := ⟨100, 100, true⟩

/-- Witness for the amended C4 at a particle sitting on the pointer
(distance 0). -/
theorem claim4_witness :
    mC4w.moved = true ∧
    mathR.sqrt ((mC4w.x - (pC4w.x + pC4w.vx)) * (mC4w.x - (pC4w.x + pC4w.vx)) +
      (mC4w.y - (pC4w.y + pC4w.vy)) * (mC4w.y - (pC4w.y + pC4w.vy))) < 200 ∧
    Real.sqrt ((updateParticle mathR 800 600 mC4w pC4w).vx ^ 2 +
      (updateParticle mathR 800 600 mC4w pC4w).vy ^ 2) ≤ 3 := by
  have hd : mathR.sqrt ((mC4w.x - (pC4w.x + pC4w.vx)) *
      (mC4w.x - (pC4w.x + pC4w.vx)) +
      (mC4w.y - (pC4w.y + pC4w.vy)) * (mC4w.y - (pC4w.y + pC4w.vy))) < 200 := by
    simp only [mathR, mC4w, pC4w]
    rw [show ((100:ℝ) - (100 + 0)) * (100 - (100 + 0)) +
      (100 - (100 + 0)) * (100 - (100 + 0)) = 0 by norm_num]
    rw [Real.sqrt_zero]
    norm_num
  exact ⟨rfl, hd, claim4_speed_clamp 800 600 mC4w pC4w rfl hd⟩

/-! ### C8 -/

/-- C8: a zero-area viewport yields an empty particle list, an empty initial
connection set, and every subsequent frame on the empty state is a total
no-op that only paints the background. -/
theorem claim8_zero_area [FloorRing K] (mf : MathFns K) (rnd : Nat → K)
    (w h : K) (hwh : w * h = 0) :
    initParticles rnd w h = [] ∧
    initState mf rnd w h = ⟨[], [], ⟨0, 0, false⟩⟩ ∧
    ∀ (r : K) (m : Mouse K),
      animateStep mf w h r ⟨[], [], m⟩ =
        (⟨[], [], m⟩, [DrawCmd.fillBackground w h]) := by
  have h0 : initParticles rnd w h = [] := by
    simp [initParticles, hwh]
  refine ⟨h0, ?_, fun r m => ?_⟩
  · rw [initState, h0]
    rfl
  · rw [animateStep]
    simp [updateConnections]

/-- Witness for C8 at the degenerate viewport `0 × 5` over `ℚ`. -/
theorem claim8_witness :
    (0 : ℚ) * 5 = 0 ∧
    (initParticles (fun _ => (0:ℚ)) 0 5 = [] ∧
      initState mathQ (fun _ => (0:ℚ)) 0 5 = ⟨[], [], ⟨0, 0, false⟩⟩ ∧
      ∀ (r : ℚ) (m : Mouse ℚ),
        animateStep mathQ 0 5 r ⟨[], [], m⟩ =
          (⟨[], [], m⟩, [DrawCmd.fillBackground 0 5])) :=
  ⟨by norm_num, claim8_zero_area mathQ _ 0 5 (by norm_num)⟩

/-! ### C9 -/

/-- C9: with no canvas, or a canvas but no 2D context, a frame returns the
state unchanged (particles, connections and mouse untouched), draws nothing,
schedules no next frame, and surfaces no error (it is a total function). -/
theorem claim9_no_surface (mf : MathFns K) (r : K) (st : SimState K)
    (surface : Option (K × K × Bool))
    (hs : surface = none ∨ ∃ w h, surface = some (w, h, false)) :
    animateFrame mf surface r st = (st, [], false) := by
  rcases hs with hs | ⟨w, h', hs⟩ <;> subst hs <;> rfl

def stC9 : SimState ℚ :=
  ⟨[⟨5, 6, 1, 1, 2, ⟨225, 95, 65⟩, 5, 6⟩], [⟨0, 0, 7⟩], ⟨9, 9, true⟩⟩

/-- Witness for C9: both missing-surface shapes at a concrete state. -/
theorem claim9_witness :
    ((none : Option (ℚ × ℚ × Bool)) = none ∨
      ∃ w h, (none : Option (ℚ × ℚ × Bool)) = some (w, h, false)) ∧
    animateFrame mathQ none 1 stC9 = (stC9, [], false) ∧
    ((some ((800:ℚ), (600:ℚ), false)) = none ∨
      ∃ w h, (some ((800:ℚ), (600:ℚ), false)) = some (w, h, false)) ∧
    animateFrame mathQ (some (800, 600, false)) 1 stC9 = (stC9, [], false) :=
  ⟨Or.inl rfl, claim9_no_surface mathQ 1 stC9 none (Or.inl rfl),
    Or.inr ⟨800, 600, rfl⟩,
    claim9_no_surface mathQ 1 stC9 _ (Or.inr ⟨800, 600, rfl⟩)⟩

/-! ### C6 -/

def pC6a : Particle ℝ := ⟨0, 0, 0, 0, 1, ⟨230, 80, 60⟩, 0, 0⟩
def pC6b : Particle ℝ := ⟨10, 0, 0, 0, 1, ⟨240, 90, 55⟩, 10, 0⟩
def stC6 : SimState ℝ := ⟨[pC6a, pC6b], [], ⟨0, 0, false⟩⟩

/-- Counterexample to C6 as stated: on a frame whose rebuild fires
(`r = 0 < 0.05`), starting from an empty cached connection set but two
particles at distance 10, the draw pass emits no line at all even though the
graph computed from the updated positions holds a connection whose stroke
alpha `(1 - 10/150) * 0.2` is positive — the drawn connections are the cached
ones, not ones computed from updated positions. -/
theorem claim6_counterexample :
    (0:ℝ) < 0.05 ∧
    ((animateStep mathR 800 600 0 stC6).2.filter fun c => c.isLine) = [] ∧
    (animateStep mathR 800 600 0 stC6).1.connections = [⟨0, 1, (10:ℝ)⟩] ∧
    (0:ℝ) < (1 - 10 / 150) * 0.2 := by
  have h100 : Real.sqrt (((0:ℝ) - 10) * ((0:ℝ) - 10) +
      ((0:ℝ) - 0) * ((0:ℝ) - 0)) = 10 := by
    rw [show ((0:ℝ) - 10) * ((0:ℝ) - 10) + ((0:ℝ) - 0) * ((0:ℝ) - 0) = 100
      by norm_num]
    exact sqrt_eval (by norm_num) (by norm_num)
  have ha : updateParticle mathR 800 600 stC6.mouse pC6a = pC6a := by
    rw [updateParticle_unmoved mathR 800 600 rfl]
    norm_num [pC6a]
  have hb : updateParticle mathR 800 600 stC6.mouse pC6b = pC6b := by
    rw [updateParticle_unmoved mathR 800 600 rfl]
    norm_num [pC6b]
  refine ⟨by norm_num, rfl, ?_, by norm_num⟩
  rw [animateStep_connections_rebuild mathR 800 600 (by norm_num) stC6,
    animateStep_particles]
  show updateConnections mathR.sqrt
    (List.map (updateParticle mathR 800 600 stC6.mouse) [pC6a, pC6b]) = _
  rw [List.map_cons, List.map_cons, List.map_nil, ha, hb]
  show updateConnections Real.sqrt [pC6a, pC6b] = _
  rw [updateConnections]
  show (List.range 2).flatMap _ = _
  rw [show List.range 2 = [0, 1] from rfl]
  rw [List.flatMap_cons, List.flatMap_cons, List.flatMap_nil]
  show ((List.range' 1 1).filterMap _ ++ ((List.range' 2 0).filterMap _ ++ _))
    = _
  rw [show List.range' 1 1 = [1] from rfl, show List.range' 2 0 = [] from rfl]
  rw [List.filterMap_nil, List.filterMap_cons, List.filterMap_nil]
  simp only [List.getD_cons_zero, List.getD_cons_succ, pC6a, pC6b]
  rw [h100]
  rw [if_pos (by norm_num : (10:ℝ) < 150)]
  simp

/-- C6 amended: the probabilistic rebuild happens after the particle update
but also after the draw pass: the frame's draw output is independent of the
rebuild draw `r`, and when the rebuild fires the new connection set is the
scan of the updated positions (first drawn only on the following frame);
when it does not fire the cached set is kept. -/
theorem claim6_rebuild_after_draw (mf : MathFns K) (w h r r' : K)
    (st : SimState K) :
    (animateStep mf w h r st).2 = (animateStep mf w h r' st).2 ∧
    (r < 0.05 → (animateStep mf w h r st).1.connections =
      updateConnections mf.sqrt ((animateStep mf w h r st).1.particles)) ∧
    (¬ r < 0.05 → (animateStep mf w h r st).1.connections =
      st.connections) :=
  ⟨animateStep_draw_indep mf w h r r' st,
    fun hr => animateStep_connections_rebuild mf w h hr st,
    fun hr => animateStep_connections_keep mf w h hr st⟩

def stC6q : SimState ℚ :=
  ⟨[⟨1, 2, 0, 0, 1, ⟨230, 80, 60⟩, 1, 2⟩], [⟨0, 0, 3⟩], ⟨0, 0, false⟩⟩

/-- Witness for the amended C6 at a concrete state, with a firing draw
(`r = 0`) and a non-firing one (`r = 1`). -/
theorem claim6_witness :
    (0:ℚ) < 0.05 ∧ ¬ (1:ℚ) < 0.05 ∧
    (animateStep mathQ 800 600 0 stC6q).2 =
      (animateStep mathQ 800 600 1 stC6q).2 ∧
    (animateStep mathQ 800 600 0 stC6q).1.connections =
      updateConnections mathQ.sqrt
        ((animateStep mathQ 800 600 0 stC6q).1.particles) ∧
    (animateStep mathQ 800 600 1 stC6q).1.connections = stC6q.connections := by
  obtain ⟨h1, h2, -⟩ := claim6_rebuild_after_draw mathQ 800 600 0 1 stC6q
  obtain ⟨-, -, h3⟩ := claim6_rebuild_after_draw mathQ 800 600 1 0 stC6q
  exact ⟨by norm_num, by norm_num, h1, h2 (by norm_num), h3 (by norm_num)⟩

/-! ### C7 -/

/-- `getD` at index 0 commutes with `map` on nonempty lists. -/
theorem getD_map_zero {α β : Type} (f : α → β) (l : List α) (d : β) (d' : α)
    (hl : l ≠ []) : (l.map f).getD 0 d = f (l.getD 0 d') := by
  cases l with
  | nil => exact absurd rfl hl
  | cons a l => simp

/-- C7 amended: on the 800×600 viewport the initializer produces exactly 60
particles, and with the pointer never moved, after 1000 frames every particle
lies within the viewport enlarged by the maximal initial speed `0.15` on each
side (a particle may transiently overshoot a boundary by less than one
velocity step before reflection pulls it back), and the connection set
recomputed from the final positions equals the direct all-pairs
distance-threshold scan of that state. -/
theorem claim7_scenario [FloorRing K] (mf : MathFns K) {rnd : Nat → K}
    (hrnd : validRnd rnd) (rs : Nat → K) :
    (initState mf rnd 800 600).particles.length = 60 ∧
    (∀ p ∈ (runSteps mf 800 600 rs 1000
        (initState mf rnd 800 600)).particles,
      -0.15 ≤ p.x ∧ p.x ≤ 800 + 0.15 ∧ -0.15 ≤ p.y ∧ p.y ≤ 600 + 0.15) ∧
    updateConnections mf.sqrt
        (runSteps mf 800 600 rs 1000 (initState mf rnd 800 600)).particles =
      directScan mf.sqrt
        (runSteps mf 800 600 rs 1000 (initState mf rnd 800 600)).particles := by
  refine ⟨?_, ?_, updateConnections_eq_directScan _ _⟩
  · show (initParticles rnd 800 600).length = 60
    simp only [initParticles, List.length_map, List.length_range]
    rw [show ((800:K) * 600 / 8000) = ((60:Nat) : K) by push_cast; norm_num]
    exact Nat.floor_natCast 60
  · intro p hp
    have hinit : ∀ q ∈ (initState mf rnd 800 600).particles,
        particleInv (800:K) 600 q := by
      intro q hq
      have hb := initParticles_mem hrnd
        (show (0:K) ≤ 800 by norm_num) (show (0:K) ≤ 600 by norm_num) hq
      obtain ⟨h1, h2, h3, h4, h5, h6, h7, h8, -⟩ := hb
      exact ⟨abs_le.mpr ⟨h5, h6⟩, abs_le.mpr ⟨h7, h8⟩,
        Or.inl ⟨h1, h2.le⟩, Or.inl ⟨h3, h4.le⟩⟩
    have hinv := runSteps_inv mf (show (0.15:K) ≤ 800 by norm_num)
      (show (0.15:K) ≤ 600 by norm_num) rs 1000 rfl hinit p hp
    exact particleInv_bounds (by norm_num) (by norm_num) hinv

/-- Witness for the amended C7 with the constant-zero random stream. -/
theorem claim7_witness :
    validRnd (fun _ => (0:ℚ)) ∧
    ((initState mathQ (fun _ => (0:ℚ)) 800 600).particles.length = 60 ∧
      (∀ p ∈ (runSteps mathQ 800 600 (fun _ => 1) 1000
          (initState mathQ (fun _ => (0:ℚ)) 800 600)).particles,
        -0.15 ≤ p.x ∧ p.x ≤ 800 + 0.15 ∧
        -0.15 ≤ p.y ∧ p.y ≤ 600 + 0.15) ∧
      updateConnections mathQ.sqrt
          (runSteps mathQ 800 600 (fun _ => 1) 1000
            (initState mathQ (fun _ => (0:ℚ)) 800 600)).particles =
        directScan mathQ.sqrt
          (runSteps mathQ 800 600 (fun _ => 1) 1000
            (initState mathQ (fun _ => (0:ℚ)) 800 600)).particles) :=
  ⟨fun _ => by norm_num,
    claim7_scenario mathQ (fun _ => by norm_num) (fun _ => 1)⟩

/-- The `Math.random()` stream of the counterexample run: particle 0 starts
at `x = 149.95` with `vx = -0.15`, `y = 0` with `vy = 0`. -/
def rndC7 : Nat → ℚ :=
  fun n => if n = 0 then 2999 / 16000 else if n = 3 then 1 / 2 else 0

/-- Particle 0 of the counterexample run at frame `k ≤ 999`. -/
def trajP (k : Nat) : Particle ℚ :=
  ⟨2999 / 20 - 3 / 20 * (k : ℚ), 0, -(3 / 20), 0, 1, ⟨220, 70, 50⟩,
    2999 / 20, 0⟩

/-- The closed-form trajectory of particle 0 for the first 999 frames: it
drifts left by `0.15` per frame and meets no boundary. -/
theorem trajP_iterate (k : Nat) (hk : k ≤ 999) :
    (updateParticle mathQ 800 600 ⟨0, 0, false⟩)^[k] (trajP 0) = trajP k := by
  induction k with
  | zero => rw [Function.iterate_zero_apply]
  | succ k ih =>
    rw [Function.iterate_succ_apply', ih (by omega)]
    rw [updateParticle_unmoved mathQ 800 600 rfl]
    have hk' : (k:ℚ) ≤ 998 := by exact_mod_cast (show k ≤ 998 by omega)
    have hk0 : (0:ℚ) ≤ (k:ℚ) := Nat.cast_nonneg k
    simp only [trajP]
    have hxc : ¬(2999 / 20 - 3 / 20 * (k:ℚ) + -(3 / 20) < 0 ∨
        2999 / 20 - 3 / 20 * (k:ℚ) + -(3 / 20) > 800) := by
      push_neg
      constructor <;> linarith
    have hyc : ¬((0:ℚ) + 0 < 0 ∨ (0:ℚ) + 0 > 600) := by norm_num
    rw [if_neg hxc, if_neg hyc]
    simp only [Particle.mk.injEq]
    refine ⟨?_, by norm_num, trivial, trivial, trivial, trivial, trivial,
      trivial⟩
    push_cast
    ring

/-- Counterexample to C7 as stated: a valid random stream for which particle 0
starts at `x = 149.95` with `vx = -0.15`; after exactly 1000 frames with the
pointer never moved its position is `x = -0.05 < 0`, outside `[0, 800]`. -/
theorem claim7_counterexample :
    validRnd rndC7 ∧
    (runSteps mathQ 800 600 (fun _ => 1) 1000
      (initState mathQ rndC7 800 600)).particles.length = 60 ∧
    ((runSteps mathQ 800 600 (fun _ => 1) 1000
      (initState mathQ rndC7 800 600)).particles.getD 0
        dummyParticle).x < 0 := by
  have hvalid : validRnd rndC7 := by
    intro n
    simp only [rndC7]
    split_ifs <;> norm_num
  have hcount : Nat.floor ((800:ℚ) * 600 / 8000) = 60 := by norm_num
  have hlen : (initParticles rndC7 800 600).length = 60 := by
    simp only [initParticles, List.length_map, List.length_range]
    exact hcount
  have hne : initParticles rndC7 800 600 ≠ [] := by
    intro hcontra
    rw [hcontra] at hlen
    exact absurd hlen (by norm_num)
  have hhead : (initParticles rndC7 800 600).getD 0 dummyParticle =
      trajP 0 := by
    simp only [initParticles]
    rw [hcount,
      show List.range 60 = 0 :: (List.range 59).map Nat.succ from
        List.range_succ_eq_map 59,
      List.map_cons, List.getD_cons_zero]
    norm_num [rndC7, trajP]
  refine ⟨hvalid, ?_, ?_⟩
  · rw [runSteps_particles, List.length_map]
    exact hlen
  · rw [runSteps_particles]
    show ((List.map (updateParticle mathQ 800 600 ⟨0, 0, false⟩)^[1000]
        (initParticles rndC7 800 600)).getD 0 dummyParticle).x < 0
    rw [getD_map_zero _ _ dummyParticle dummyParticle hne]
    rw [hhead, show (1000:Nat) = 999 + 1 from rfl,
      Function.iterate_succ_apply', trajP_iterate 999 le_rfl,
      updateParticle_unmoved mathQ 800 600 rfl]
    norm_num [trajP]

end ParticleNetwork
